import Mathlib

set_option autoImplicit false
set_option linter.unusedVariables false

namespace DocuQuery

/-!
Shallow embedding of the docu_query_backend retrieval pipeline
(src/app/core and src/app/ingest).

Modelling conventions:
* Python dicts that the code mutates key-by-key are modelled as
  insertion-ordered association lists (`List (String × β)`): assignment
  updates the first matching entry in place, otherwise appends, exactly
  like CPython dict assignment; `del` removes the entry.
* Machine floats (relevance scores) are modelled as rationals `ℚ`,
  Python ints as `Int`/`Nat`.
* A raised exception is modelled as an `Except`/`Option` result; external
  services (BM25 library, vector store, Cohere, semantic splitter) are
  opaque parameters, as the spec treats them.
* A dict value that can be absent, present-as-`None`, or present with a
  value `v` is modelled as `Option (Option _)` (`none` / `some none` /
  `some (some v)`).
-/

/-- Python dict assignment `d[k] = v` on an insertion-ordered association
list: update the entry for `k` in place if present, else append. -/
def dictSet {β : Type} : List (String × β) → String → β → List (String × β)
| [], k, v => [(k, v)]
| e :: rest, k, v => if e.1 = k then (k, v) :: rest else e :: dictSet rest k v

/-- Python `del d[k]`: remove the entry for `k` (keys are unique in a dict,
so removing the first occurrence models it). -/
def dictDelete {β : Type} : List (String × β) → String → List (String × β)
| [], _ => []
| e :: rest, k => if e.1 = k then rest else e :: dictDelete rest k

/-- Python `d[k]` / `d.get(k)` lookup on an association list. -/
def dictGet {β : Type} : List (String × β) → String → Option β
| [], _ => none
| e :: rest, k => if e.1 = k then some e.2 else dictGet rest k

/-- Python `max(scores, default=dflt)`. -/
def pyMax (l : List ℚ) (dflt : ℚ) : ℚ :=
match l with
| [] => dflt
| h :: t => t.foldl max h

/-- Python `metadata.get(key)` where the stored value may itself be `None`. -/
def pyGetNone (o : Option (Option Int)) : Option Int := o.getD none

/-- Python `metadata.get(key, 0)` where the stored value may itself be
`None`. -/
def pyGetZero (o : Option (Option Int)) : Option Int := o.getD (some 0)

/-! ### Citations: page estimation (src/app/core/citations.py, _estimate_page_number) -/

/-- Metadata fields read by `_estimate_page_number`. Each Python dict key
can be absent, present with `None`, or present with an integer. -/
structure CitMeta where
  page_number : Option (Option Int)
  start_char_idx : Option (Option Int)
deriving DecidableEq

/-- Embedding of `_estimate_page_number` (citations.py lines 45-57):
`page = metadata.get("page_number"); if page is not None: return page;`
`start_char_idx = metadata.get("start_char_idx", 0);`
`if start_char_idx is not None and start_char_idx > 0:`
`return (start_char_idx // 3000) + 1; return None`.
Python `//` on ints is floor division, `Int.fdiv`. -/
def estimatePageNumber (m : CitMeta) : Option Int :=
match pyGetNone m.page_number with
| some page => some page
| none =>
  match pyGetZero m.start_char_idx with
  | some idx => if 0 < idx then some (idx.fdiv 3000 + 1) else none
  | none => none

/-! ### Reranker (src/app/core/reranker.py, CohereReranker.rerank) -/

/-- A llama_index node: the reranker and retriever only use its id and
text content. -/
structure Node where
  nodeId : String
  content : String
deriving DecidableEq

/-- A llama_index `NodeWithScore`. -/
structure NodeWithScore where
  node : Node
  score : ℚ
deriving DecidableEq

/-- The remapping loop of `CohereReranker.rerank`: for each service result
`(index, relevance_score)` build `NodeWithScore(nodes[idx].node, score)`.
An out-of-range index raises `IndexError` (caught by the surrounding
`except`), modelled as `none`. -/
def remapResults (nodes : List NodeWithScore) : List (Nat × ℚ) → Option (List NodeWithScore)
| [] => some []
| (idx, sc) :: rest =>
  match nodes[idx]? with
  | none => none
  | some nws => (remapResults nodes rest).map (fun tl => ⟨nws.node, sc⟩ :: tl)

/-- Embedding of `CohereReranker.rerank` (reranker.py lines 20-58).
`client` is whether `self.client` is configured; `serviceResponse` is the
outcome of the Cohere call for this query and candidate list (`none` means
the call raised). The `query` and candidate texts only flow into the
opaque service call, which is abstracted by `serviceResponse`. -/
def rerank (client : Bool) (serviceResponse : Option (List (Nat × ℚ)))
    (query : String) (nodes : List NodeWithScore) (topK : Nat) : List NodeWithScore :=
if nodes = [] then []
else if nodes.length ≤ topK then nodes
else if client = false then nodes.take topK
else
  match serviceResponse with
  | none => nodes.take topK
  | some results =>
    match remapResults nodes results with
    | some reranked => reranked
    | none => nodes.take topK

/-- Concrete candidate list used to witness the reranker theorem. -/
def witnessNodes : List NodeWithScore :=
[⟨⟨"n1", "alpha"⟩, 3⟩, ⟨⟨"n2", "beta"⟩, 2⟩, ⟨⟨"n3", "gamma"⟩, 1⟩]

/-! ### Conversation memory (src/app/core/memory.py) -/

/-- A stored conversation turn: `{"role": ..., "content": ...,`
`"timestamp": ...}` plus the optional `"metadata"` key (the metadata dict
is opaque to the memory logic and modelled as an optional token). -/
structure ChatMessage where
  role : String
  content : String
  timestamp : String
  metadata : Option String
deriving DecidableEq

/-- The `ConversationMemory.sessions` dict. -/
abbrev Sessions := List (String × List ChatMessage)

/-- Python slice `lst[-k:]`. Note that for `k = 0` the slice `lst[-0:]`
is `lst[0:]`, the whole list. -/
def pyTailSlice {α : Type} (k : Nat) (l : List α) : List α :=
if k = 0 then l else l.drop (l.length - k)

/-- The last `k` elements of a list. -/
def lastN {α : Type} (k : Nat) (l : List α) : List α := l.drop (l.length - k)

/-- Embedding of `ConversationMemory.add_message` (memory.py lines 13-34).
`maxConversationHistory` is `settings.max_conversation_history`; the
`datetime.now().isoformat()` timestamp is passed explicitly. -/
def addMessage (sessions : Sessions) (maxConversationHistory : Nat)
    (sessionId role content timestamp : String) (metadata : Option String) : Sessions :=
let sessions1 := if (dictGet sessions sessionId).isSome then sessions
  else dictSet sessions sessionId []
let message : ChatMessage := ⟨role, content, timestamp, metadata⟩
let history := (dictGet sessions1 sessionId).getD [] ++ [message]
let history1 := if maxConversationHistory * 2 < history.length
  then pyTailSlice (maxConversationHistory * 2) history else history
dictSet sessions1 sessionId history1

/-- Embedding of `ConversationMemory.get_history`:
`self.sessions.get(session_id, [])`. -/
def getHistory (sessions : Sessions) (sessionId : String) : List ChatMessage :=
(dictGet sessions sessionId).getD []

/-- Embedding of `ConversationMemory.clear_session`:
`if session_id in self.sessions: del self.sessions[session_id]`. -/
def clearSession (sessions : Sessions) (sessionId : String) : Sessions :=
if (dictGet sessions sessionId).isSome then dictDelete sessions sessionId else sessions

/-- One `add_message` call's arguments (role, content, timestamp,
optional metadata). -/
structure MsgInput where
  role : String
  content : String
  timestamp : String
  metadata : Option String
deriving DecidableEq

/-- The message a `MsgInput` turns into. -/
def MsgInput.toMessage (i : MsgInput) : ChatMessage :=
⟨i.role, i.content, i.timestamp, i.metadata⟩

/-- A sequence of `add_message` calls on one session. -/
def runAddMessages (sessions : Sessions) (maxHist : Nat) (sessionId : String)
    (inputs : List MsgInput) : Sessions :=
inputs.foldl
  (fun m i => addMessage m maxHist sessionId i.role i.content i.timestamp i.metadata) sessions

/-- Concrete inputs used to witness the conversation-memory theorem. -/
def witnessMsgs : List MsgInput :=
[⟨"user", "q1", "t1", none⟩, ⟨"assistant", "a1", "t2", none⟩, ⟨"user", "q2", "t3", none⟩]

/-! ### Task store (src/app/core/task_store.py, schemas.py, tasks.py) -/

/-- The `TaskStatus` enum of schemas.py. -/
inductive TaskStatus where
| processing
| completed
| failed
deriving DecidableEq

/-- The `.value` string of a `TaskStatus` member. -/
def TaskStatus.value : TaskStatus → String
| .processing => "processing"
| .completed => "completed"
| .failed => "failed"

/-- A row of the sqlite `tasks` table (task_store.py `init_db`): nullable
TEXT columns are `Option String`, nullable INTEGER columns `Option Int`. -/
structure TaskRow where
  status : String
  filename : String
  created_at : String
  completed_at : Option String
  failed_at : Option String
  chunks : Option Int
  pages : Option Int
  error : Option String
  ok : Option Int
deriving DecidableEq

/-- The sqlite `tasks` table, keyed by the primary key `task_id`. -/
abbrev SqlStore := List (String × TaskRow)

/-- The dict returned by `create_task`. -/
structure CreateResult where
  status : TaskStatus
  filename : String
  created_at : String
deriving DecidableEq

/-- Embedding of `create_task` (task_store.py lines 53-68): `INSERT` a new
`processing` row with `ok = 1`. Inserting an existing primary key raises
an IntegrityError and leaves the table unchanged (no `OR REPLACE`). -/
def createTask (store : SqlStore) (taskId filename createdAt : String) :
    Except String (SqlStore × CreateResult) :=
if (dictGet store taskId).isSome then
  Except.error "UNIQUE constraint failed: tasks.task_id"
else
  Except.ok
    (store ++ [(taskId,
      { status := TaskStatus.processing.value, filename := filename,
        created_at := createdAt, completed_at := none, failed_at := none,
        chunks := none, pages := none, error := none, ok := some 1 })],
     { status := TaskStatus.processing, filename := filename, created_at := createdAt })

/-- Python truthiness of a nullable string column (`if row["error"]:`):
`None` and `""` are falsy. -/
def pyTruthyStr : Option String → Bool
| none => false
| some s => s != ""

/-- The dict `get_task` builds from a row. -/
structure TaskResult where
  status : String
  filename : String
  created_at : String
  ok : Option Bool
  completed_at : Option String
  failed_at : Option String
  chunks : Option Int
  pages : Option Int
  error : Option String
deriving DecidableEq

/-- Embedding of `get_task` (task_store.py lines 71-98): look the row up
by id; copy `completed_at`/`failed_at`/`error` only when truthy, `ok` as
`bool(row["ok"])` when the column is not NULL, `chunks`/`pages` when not
NULL. -/
def getTask (store : SqlStore) (taskId : String) : Option TaskResult :=
(dictGet store taskId).map fun row =>
  { status := row.status, filename := row.filename, created_at := row.created_at,
    ok := row.ok.map (fun i => i != 0),
    completed_at := if pyTruthyStr row.completed_at then row.completed_at else none,
    failed_at := if pyTruthyStr row.failed_at then row.failed_at else none,
    chunks := row.chunks, pages := row.pages,
    error := if pyTruthyStr row.error then row.error else none }

/-- sqlite `UPDATE tasks SET ... WHERE task_id = ?`: rewrite every row
whose key matches (the primary key makes that at most one row). -/
def sqlUpdate (store : SqlStore) (taskId : String) (f : TaskRow → TaskRow) : SqlStore :=
store.map fun e => if e.1 = taskId then (e.1, f e.2) else e

/-- Embedding of `complete_task` (task_store.py lines 101-112): set
status/completed_at/chunks/pages/ok with no guard on the current status. -/
def completeTask (store : SqlStore) (taskId : String) (chunks pages : Int)
    (completedAt : String) : SqlStore :=
sqlUpdate store taskId fun row =>
  { row with
    status := TaskStatus.completed.value
    completed_at := some completedAt
    chunks := some chunks
    pages := some pages
    ok := some 1 }

/-- Embedding of `fail_task` (task_store.py lines 115-126): set
status/failed_at/error/ok with no guard on the current status. -/
def failTask (store : SqlStore) (taskId : String) (error failedAt : String) : SqlStore :=
sqlUpdate store taskId fun row =>
  { row with
    status := TaskStatus.failed.value
    failed_at := some failedAt
    error := some error
    ok := some 0 }

/-- An entry of the in-process `task_statuses` dict (schemas.py) as
written by `process_and_index_document` (tasks.py). -/
structure MemTask where
  ok : Bool
  status : TaskStatus
  filename : String
  created_at : Option String
  completed_at : Option String
  failed_at : Option String
  chunks : Option Nat
  pages : Option Nat
  error : Option String
deriving DecidableEq

/-- The in-process `task_statuses : Dict[str, Dict]` of schemas.py. -/
abbrev MemStore := List (String × MemTask)

/-- Accumulator for POSIX `os.path.basename`: restart at every slash. -/
def basenameAux : List Char → List Char → List Char
| [], acc => acc.reverse
| c :: rest, acc => if c = '/' then basenameAux rest [] else basenameAux rest (c :: acc)

/-- POSIX `os.path.basename`: the part after the last slash. -/
def pyBasename (p : String) : String := String.mk (basenameAux p.data [])

/-- Outcome of the load → chunk → index part of the background pipeline,
which calls only external services (file loader, semantic splitter,
Chroma, OpenAI embeddings): on success, the `total_pages` metadata of
each loaded document together with the number of chunk nodes produced;
`Except.error e` models `str(e)` of a raised exception. -/
abbrev PipelineOutcome := Except String (List (Option Nat) × Nat)

/-- Embedding of `process_and_index_document` (tasks.py lines 31-66). The
function records its terminal state in the in-process `task_statuses`
dict; it does not import task_store.py and never touches the sqlite
store, which is why it takes and returns only the `MemStore`.
`page_count` is
`documents[0].metadata.get("total_pages", len(documents)) if documents else 0`. -/
def processAndIndexDocument (taskStatuses : MemStore) (filePath taskId : String)
    (outcome : PipelineOutcome) (now : String) : MemStore :=
match outcome with
| Except.ok (docsTotalPages, numNodes) =>
  let pageCount : Nat :=
    match docsTotalPages with
    | [] => 0
    | d :: _ => d.getD docsTotalPages.length
  dictSet taskStatuses taskId
    { ok := true, status := TaskStatus.completed, filename := pyBasename filePath,
      created_at := (dictGet taskStatuses taskId).bind MemTask.created_at,
      completed_at := some now, failed_at := none,
      chunks := some numNodes, pages := some pageCount, error := none }
| Except.error e =>
  dictSet taskStatuses taskId
    { ok := false, status := TaskStatus.failed, filename := pyBasename filePath,
      created_at := (dictGet taskStatuses taskId).bind MemTask.created_at,
      completed_at := none, failed_at := some now,
      chunks := none, pages := none, error := some e }

/-- The row `create_task("t", "f.txt", "T0")` inserts. -/
def seedRow : TaskRow :=
⟨TaskStatus.processing.value, "f.txt", "T0", none, none, none, none, none, some 1⟩

/-- The store holding exactly that freshly created row. -/
def seedStore : SqlStore := [("t", seedRow)]

/-! ### Citations: excerpt extraction (src/app/core/citations.py, _extract_key_sentences) -/

/-- The sentence-ending punctuation class of the split pattern. -/
def isSentEnd (c : Char) : Bool := c = '.' || c = '!' || c = '?'

/-- The whitespace class of the split pattern and of `str.strip`/`str.split`
(ASCII part; the Unicode extras never occur in these texts). -/
def isPySpace (c : Char) : Bool :=
c = ' ' || c = '\t' || c = '\n' || c = '\r' || c = '\x0b' || c = '\x0c'

/-- Scanner for `re.split` on the pattern: one-or-more sentence-ending
punctuation characters followed by one-or-more whitespace characters.
Scanning left to right, a match is a maximal punctuation run followed by
a maximal whitespace run (greedy leftmost-match semantics); the matched
separator is dropped and the stretches between matches are the returned
tokens. `acc` holds the current token reversed. A punctuation run that is
not followed by whitespace (or ends the text) starts no match and stays
inside the token. -/
def splitSentencesAux : List Char → List Char → List (List Char)
| [], acc => [acc.reverse]
| c :: rest, acc =>
  if isSentEnd c then
    match htail : rest.dropWhile isSentEnd with
    | [] => [acc.reverse ++ (c :: rest.takeWhile isSentEnd)]
    | d :: tail2 =>
      if isPySpace d then
        acc.reverse :: splitSentencesAux (tail2.dropWhile isPySpace) []
      else
        splitSentencesAux (d :: tail2) ((c :: rest.takeWhile isSentEnd).reverse ++ acc)
  else
    splitSentencesAux rest (c :: acc)
termination_by l acc => l.length
decreasing_by
  · have h1 : (rest.dropWhile isSentEnd).length ≤ rest.length :=
      (List.dropWhile_sublist isSentEnd).length_le
    rw [htail] at h1
    have h2 : (tail2.dropWhile isPySpace).length ≤ tail2.length :=
      (List.dropWhile_sublist isPySpace).length_le
    simp only [List.length_cons] at h1 ⊢
    omega
  · have h1 : (rest.dropWhile isSentEnd).length ≤ rest.length :=
      (List.dropWhile_sublist isSentEnd).length_le
    rw [htail] at h1
    simp only [List.length_cons] at h1 ⊢
    omega
  · simp only [List.length_cons]
    omega

/-- The sentence split `re.split` performs in `_extract_key_sentences`. -/
def splitSentences (text : List Char) : List (List Char) := splitSentencesAux text []

/-- Python `str.strip()`: remove leading and trailing whitespace. -/
def pyStrip (l : List Char) : List Char :=
((l.dropWhile isPySpace).reverse.dropWhile isPySpace).reverse

/-- Worker for `str.split()` with no separator: whitespace-delimited
words, no empty tokens; `acc` holds the current word reversed. -/
def pyWordsAux : List Char → List Char → List (List Char)
| [], acc => if acc.isEmpty then [] else [acc.reverse]
| c :: rest, acc =>
  if isPySpace c then
    if acc.isEmpty then pyWordsAux rest [] else acc.reverse :: pyWordsAux rest []
  else pyWordsAux rest (c :: acc)

/-- Python `str.split()` with no separator. -/
def pyWords (l : List Char) : List (List Char) := pyWordsAux l []

/-- Python `str.lower()` (ASCII case folding suffices here). -/
def pyLower (l : List Char) : List Char := l.map Char.toLower

/-- Python substring test `needle in haystack`. -/
def isSubOf (needle : List Char) : List Char → Bool
| [] => needle.isEmpty
| c :: rest => needle.isPrefixOf (c :: rest) || isSubOf needle rest

/-- The per-sentence relevance score of `_extract_key_sentences`:
`sum(1 for word in query_words if word in sent.lower())`, where
`query_words` is the set of distinct lowercased query words. -/
def sentenceScore (queryWords : List (List Char)) (sent : List Char) : Nat :=
queryWords.countP (fun w => isSubOf w (pyLower sent))

/-- `scored_sentences.sort(reverse=True, key=lambda x: x[0])`: a stable
sort descending by score (Python list.sort is stable, and `reverse=True`
keeps equal-keyed elements in their original order). -/
def sortByScoreDesc (scored : List (Nat × List Char)) : List (Nat × List Char) :=
scored.mergeSort (fun a b => b.1 ≤ a.1)

/-- The query-prioritised ordering of sentences in
`_extract_key_sentences`: with a query, score each sentence by distinct
query words contained and sort descending (stable); without, keep the
split order. -/
def orderSentences (query : Option (List Char)) (sentences : List (List Char)) :
    List (List Char) :=
match query with
| some q =>
  let queryWords := (pyWords (pyLower q)).dedup
  (sortByScoreDesc (sentences.map (fun sent => (sentenceScore queryWords sent, sent)))).map
    (fun p => p.2)
| none => sentences

/-- The greedy summary loop of `_extract_key_sentences`: while
`len(summary) + len(sent) + 2 <= max_length`, append the sentence (joined
by ". " when the summary is nonempty); break at the first overflow. -/
def buildSummary (maxLength : Nat) : List (List Char) → List Char → List Char
| [], summary => summary
| sent :: rest, summary =>
  if summary.length + sent.length + 2 ≤ maxLength then
    buildSummary maxLength rest
      (if summary.isEmpty then summary ++ sent
       else summary ++ ('.' :: ' ' :: sent))
  else summary

/-- The trailing `"..."` marker. -/
def ellipsis : List Char := ['.', '.', '.']

/-- Embedding of `_extract_key_sentences` (citations.py lines 7-42) on
the character list of the chunk text. Python truthiness of a list or
string is spelled as (in)equality with `[]`. -/
def extractKeySentences (text : List Char) (query : Option (List Char))
    (maxLength : Nat) : List Char :=
if text.length ≤ maxLength then text
else
  let sentences := ((splitSentences text).map pyStrip).filter (fun s => !s.isEmpty)
  if sentences = [] then text.take maxLength ++ ellipsis
  else
    let summary := buildSummary maxLength (orderSentences query sentences) []
    if summary = [] then text.take maxLength ++ ellipsis
    else if maxLength < text.length then summary ++ ellipsis else summary

/-! ### Hybrid retriever (src/app/core/hybrid_retriever.py, HybridRetriever.retrieve) -/

/-- The `results` dict of `retrieve`: key `node_id`, value the pair
`(node, accumulated fused score)`. -/
abbrev FusedResults := List (String × (Node × ℚ))

/-- The per-hit normalisation of `retrieve`:
`score / max_score if max_score > 0 else 0.0`. -/
def normalizeScore (score maxScore : ℚ) : ℚ :=
if 0 < maxScore then score / maxScore else 0

/-- One iteration of a fusion loop in `retrieve`: ensure the node has an
entry (`results[node_id] = (node, 0.0)` when absent), then store
`(node, current + weight * normalized_score)`. -/
def addHit (results : FusedResults) (weight maxScore : ℚ) (hit : Node × ℚ) : FusedResults :=
let nid := hit.1.nodeId
let results1 := if (dictGet results nid).isSome then results
  else dictSet results nid (hit.1, 0)
let current := ((dictGet results1 nid).getD (hit.1, 0)).2
dictSet results1 nid (hit.1, current + weight * normalizeScore hit.2 maxScore)

/-- A whole fusion loop over one retriever's hit list. -/
def fusePhase (results : FusedResults) (hits : List (Node × ℚ)) (weight maxScore : ℚ) :
    FusedResults :=
hits.foldl (fun acc hit => addHit acc weight maxScore hit) results

/-- The fused `results` dict `retrieve` builds (hybrid_retriever.py lines
50-86) before sorting. `bm25Search` is `self.bm25_retriever.search`
(`none` when no BM25 index exists), `vectorSearch` the vector-store
retriever (`Except.error` when `retriever.retrieve` raises, which the
code logs and survives); both are opaque external services.
`vectorWeight` is `settings.hybrid_search_weight` and
`bm25_weight = 1.0 - vector_weight`. Each side is asked for `top_k * 2`
hits and normalised by `max` over its own result set's scores
(`default=1.0`); the vector loop runs over `vector_results[: top_k * 2]`. -/
def retrieveFused (bm25Search : Option (String → Nat → List (Node × ℚ)))
    (vectorSearch : Except String (String → Nat → List (Node × ℚ)))
    (vectorWeight : ℚ) (query : String) (topK : Nat) : FusedResults :=
let bm25Weight : ℚ := 1 - vectorWeight
let results : FusedResults := []
let results1 :=
  match bm25Search with
  | some search =>
    let bm25Results := search query (topK * 2)
    let maxBm25Score := pyMax (bm25Results.map (fun p => p.2)) 1
    fusePhase results bm25Results bm25Weight maxBm25Score
  | none => results
match vectorSearch with
| Except.ok search =>
  let vectorResults := search query (topK * 2)
  let maxVectorScore := pyMax (vectorResults.map (fun p => p.2)) 1
  fusePhase results1 (vectorResults.take (topK * 2)) vectorWeight maxVectorScore
| Except.error _ => results1

/-- Embedding of `HybridRetriever.retrieve` (lines 41-92): sort the fused
dict values by score descending (Python `sorted` is stable) and return
the first `top_k` as `NodeWithScore`s. -/
def retrieve (bm25Search : Option (String → Nat → List (Node × ℚ)))
    (vectorSearch : Except String (String → Nat → List (Node × ℚ)))
    (vectorWeight : ℚ) (query : String) (topK : Nat) : List NodeWithScore :=
let scoredNodes :=
  ((retrieveFused bm25Search vectorSearch vectorWeight query topK).map
    (fun e => e.2)).mergeSort (fun a b => b.2 ≤ a.2)
(scoredNodes.take topK).map (fun p => ⟨p.1, p.2⟩)

/-- Structural invariant of the `results` dict: node ids are unique keys
and every stored node carries its own key as id. -/
def goodResults (rs : FusedResults) : Prop :=
(rs.map (fun e => e.1)).Nodup ∧ ∀ e ∈ rs, e.2.1.nodeId = e.1

/-- Concrete lexical hit list used to witness the fusion theorem. -/
def witnessHits : List (Node × ℚ) := [(⟨"a", "alpha"⟩, 3), (⟨"b", "beta"⟩, 1)]

/-! ### Chunker (src/app/ingest/chunker.py, chunk_documents) -/

/-- The metadata of a source document as the loaders produce it
(loaders.py): a filename plus page bookkeeping that the chunker copies
through. The chunker also guards on a pre-existing `start_char_idx` key,
so that field is modelled (absent / present-`None` / value) even though
no loader in the repository ever writes it. -/
structure DocMeta where
  file_name : Option String
  start_char_idx : Option (Option Int)
deriving DecidableEq

/-- A source document: raw text plus metadata. -/
structure PyDocument where
  text : List Char
  metadata : DocMeta
deriving DecidableEq

/-- A chunk node as built by `chunk_documents`, restricted to the fields
the offset claims are about (the remaining metadata is copied verbatim
from the parent document). -/
structure ChunkNode where
  text : List Char
  file_name : String
  start_char_idx : Int
deriving DecidableEq

/-- The separator class of `normalize_text`'s first substitution. -/
def isSepChar (c : Char) : Bool := c = '=' || c = '-' || c = '_' || c = '*'

/-- First substitution of `normalize_text`: every maximal run of 3 or
more separator-class characters (the repeated class matches mixed runs
greedily) becomes one space; shorter runs stay. -/
def collapseSeps : List Char → List Char
| [] => []
| c :: rest =>
  if isSepChar c then
    (if 3 ≤ (c :: rest.takeWhile isSepChar).length then [' ']
     else c :: rest.takeWhile isSepChar) ++ collapseSeps (rest.dropWhile isSepChar)
  else c :: collapseSeps rest
termination_by l => l.length
decreasing_by
  · have h1 : (rest.dropWhile isSepChar).length ≤ rest.length :=
      (List.dropWhile_sublist isSepChar).length_le
    simp only [List.length_cons]
    omega
  · simp only [List.length_cons]
    omega

/-- The newline/carriage-return/tab class of the second substitution. -/
def isNlt (c : Char) : Bool := c = '\n' || c = '\r' || c = '\t'

/-- Second substitution: collapse every run of newline/CR/tab characters
to one space. -/
def collapseNlt : List Char → List Char
| [] => []
| c :: rest =>
  if isNlt c then ' ' :: collapseNlt (rest.dropWhile isNlt)
  else c :: collapseNlt rest
termination_by l => l.length
decreasing_by
  · have h1 : (rest.dropWhile isNlt).length ≤ rest.length :=
      (List.dropWhile_sublist isNlt).length_le
    simp only [List.length_cons]
    omega
  · simp only [List.length_cons]
    omega

/-- Third substitution: collapse every run of 2 or more whitespace
characters to one space. -/
def collapseWs : List Char → List Char
| [] => []
| c :: rest =>
  if isPySpace c then
    (if 2 ≤ (c :: rest.takeWhile isPySpace).length then [' ']
     else c :: rest.takeWhile isPySpace) ++ collapseWs (rest.dropWhile isPySpace)
  else c :: collapseWs rest
termination_by l => l.length
decreasing_by
  · have h1 : (rest.dropWhile isPySpace).length ≤ rest.length :=
      (List.dropWhile_sublist isPySpace).length_le
    simp only [List.length_cons]
    omega
  · simp only [List.length_cons]
    omega

/-- Embedding of `normalize_text` (chunker.py lines 12-24): the three
substitutions followed by `strip`. (The `if not text: return ""` early
return coincides with the pipeline's value on empty text.) -/
def normalizeText (text : List Char) : List Char :=
pyStrip (collapseWs (collapseNlt (collapseSeps text)))

/-- Processing of one span in the inner loop of `chunk_documents`: the
node metadata is the parent metadata (the langchain span metadata is
always empty, as `SemanticChunker.create_documents` is called without
`metadatas`), `file_name` defaults to "unknown"; a pre-existing
non-`None` `start_char_idx` is kept, otherwise the per-filename running
offset (`char_position_map`, defaulting to 0) is assigned; the counter
is then advanced to `start_char_idx + len(chunk)`. -/
def chunkOne (charPositionMap : List (String × Int)) (docMeta : DocMeta)
    (span : List Char) : ChunkNode × List (String × Int) :=
let docName := docMeta.file_name.getD "unknown"
match docMeta.start_char_idx with
| some (some v) =>
  (⟨span, docName, v⟩, dictSet charPositionMap docName (v + span.length))
| _ =>
  let start := (dictGet charPositionMap docName).getD 0
  (⟨span, docName, start⟩, dictSet charPositionMap docName (start + span.length))

/-- Embedding of `chunk_documents` (chunker.py lines 27-74). `split` is
the opaque semantic segmentation service applied to the normalised text;
nodes are emitted in source order while `char_position_map` is threaded
through all documents. -/
def chunkDocuments (split : List Char → List (List Char))
    (documents : List PyDocument) : List ChunkNode :=
(documents.foldl
  (fun state doc =>
    (split (normalizeText doc.text)).foldl
      (fun st span =>
        ((st.1 ++ [(chunkOne st.2 doc.metadata span).1]),
          (chunkOne st.2 doc.metadata span).2))
      state)
  ([], [])).1

/-- The invariant threaded through `chunk_documents`: all emitted offsets
are non-negative, every emitted chunk's offset is bounded by the current
counter of its filename, counters are non-negative, and the emitted
chunks satisfy the per-filename monotonicity claim. -/
def chunkInv (nodes : List ChunkNode) (posMap : List (String × Int)) : Prop :=
(∀ c ∈ nodes, 0 ≤ c.start_char_idx) ∧
(∀ c ∈ nodes, ∃ m, dictGet posMap c.file_name = some m ∧ c.start_char_idx ≤ m) ∧
(∀ f m, dictGet posMap f = some m → 0 ≤ m) ∧
nodes.Pairwise (fun a b => a.file_name = b.file_name → a.start_char_idx ≤ b.start_char_idx)

/-- Concrete documents used to witness the chunker theorem: two source
documents sharing one filename, as a multi-page file loads. -/
def witnessDocs : List PyDocument :=
[⟨('h' :: 'i' :: ' ' :: 't' :: 'h' :: 'e' :: 'r' :: 'e' :: []), ⟨some "f.txt", none⟩⟩,
 ⟨('m' :: 'o' :: 'r' :: 'e' :: []), ⟨some "f.txt", none⟩⟩]

/-! ### Theorems -/

/-- C9: the citation page field equals the explicit page metadata when it
is present; otherwise, when a start-char-offset is known (present and not
`None`) and strictly positive, it equals `floor(offset / 3000) + 1`;
otherwise it is `null`. -/
theorem estimatePageNumber_spec :
    (∀ (m : CitMeta) (p : Int), m.page_number = some (some p) →
      estimatePageNumber m = some p) ∧
    (∀ (m : CitMeta) (i : Int), pyGetNone m.page_number = none →
      m.start_char_idx = some (some i) → 0 < i →
      estimatePageNumber m = some (i.fdiv 3000 + 1)) ∧
    (∀ m : CitMeta, pyGetNone m.page_number = none →
      (∀ i : Int, m.start_char_idx = some (some i) → i ≤ 0) →
      estimatePageNumber m = none) := by
  refine ⟨?_, ?_, ?_⟩
  · intro m p h
    simp [estimatePageNumber, pyGetNone, h]
  · intro m i hp hs hi
    simp [estimatePageNumber, hp, pyGetZero, hs, hi]
  · intro m hp hnonpos
    rcases hm : m.start_char_idx with _ | v
    · simp [estimatePageNumber, hp, pyGetZero, hm]
    · rcases v with _ | i
      · simp [estimatePageNumber, hp, pyGetZero, hm]
      · have := hnonpos i hm
        simp [estimatePageNumber, hp, pyGetZero, hm, not_lt.mpr this]

/-- Witness for C9 at concrete metadata: explicit page 7 wins; with no
page and offset 4500 the estimate is `4500 // 3000 + 1 = 2`; with a
`None`-valued page and no offset the page is unknown. -/
theorem estimatePageNumber_spec_witness :
    estimatePageNumber ⟨some (some 7), some (some 99)⟩ = some 7 ∧
    estimatePageNumber ⟨none, some (some 4500)⟩ = some ((4500 : Int).fdiv 3000 + 1) ∧
    estimatePageNumber ⟨some none, none⟩ = none :=
  ⟨estimatePageNumber_spec.1 _ 7 rfl,
   estimatePageNumber_spec.2.1 _ 4500 rfl rfl (by decide),
   estimatePageNumber_spec.2.2 _ rfl (fun i h => nomatch h)⟩

/-- C4: if the candidate list has at most `k` elements, `rerank` returns
it unchanged; if it has more than `k` elements and either no client is
configured or the service call raises, `rerank` returns exactly the first
`k` candidates in original order with original scores. -/
theorem rerank_fallback (client : Bool) (service : Option (List (Nat × ℚ)))
    (query : String) (nodes : List NodeWithScore) (topK : Nat) :
    (nodes.length ≤ topK → rerank client service query nodes topK = nodes) ∧
    (topK < nodes.length → client = false ∨ service = none →
      rerank client service query nodes topK = nodes.take topK) := by
  constructor
  · intro hle
    by_cases hnil : nodes = []
    · simp [rerank, hnil]
    · simp [rerank, hnil, hle]
  · intro hgt hfall
    have hnil : ¬ nodes = [] := by
      intro h
      rw [h] at hgt
      exact Nat.not_lt_zero _ hgt
    have hle : ¬ nodes.length ≤ topK := not_le.mpr hgt
    rcases hfall with hc | hs
    · simp [rerank, hnil, hle, hc]
    · subst hs
      rcases client with _ | _ <;> simp [rerank, hnil, hle]

/-- Witness for C4: with three candidates and `k = 1`, a missing client
falls back to the first candidate; with `k = 5 ≥ 3` the list is returned
unchanged. -/
theorem rerank_fallback_witness :
    rerank false none "q" witnessNodes 1 = witnessNodes.take 1 ∧
    rerank true none "q" witnessNodes 5 = witnessNodes :=
  ⟨(rerank_fallback false none "q" witnessNodes 1).2 (by decide) (Or.inl rfl),
   (rerank_fallback true none "q" witnessNodes 5).1 (by decide)⟩

theorem dictGet_dictSet_self {β : Type} (m : List (String × β)) (k : String) (v : β) :
    dictGet (dictSet m k v) k = some v := by
  induction m with
  | nil => simp [dictSet, dictGet]
  | cons e rest ih =>
    by_cases h : e.1 = k
    · simp [dictSet, dictGet, h]
    · simp [dictSet, dictGet, h, ih]

theorem dictGet_dictSet_ne {β : Type} (m : List (String × β)) (k k' : String) (v : β)
    (h : k' ≠ k) : dictGet (dictSet m k v) k' = dictGet m k' := by
  induction m with
  | nil => simp [dictSet, dictGet, Ne.symm h]
  | cons e rest ih =>
    by_cases he : e.1 = k
    · subst he
      simp [dictSet, dictGet, Ne.symm h, h]
    · by_cases he' : e.1 = k'
      · simp [dictSet, dictGet, he, he', h]
      · simp [dictSet, dictGet, he, he', ih]

theorem dictGet_dictDelete_ne {β : Type} (m : List (String × β)) (k k' : String)
    (h : k' ≠ k) : dictGet (dictDelete m k) k' = dictGet m k' := by
  induction m with
  | nil => simp [dictDelete, dictGet]
  | cons e rest ih =>
    by_cases he : e.1 = k
    · subst he
      simp [dictDelete, dictGet, Ne.symm h]
    · by_cases he' : e.1 = k'
      · simp [dictDelete, dictGet, he, he', h]
      · simp [dictDelete, dictGet, he, he', ih]

theorem lastN_eq_reverse_take {α : Type} (k : Nat) (l : List α) :
    lastN k l = (l.reverse.take k).reverse := by
  simp [lastN, List.take_reverse, List.reverse_reverse]

theorem lastN_length_le {α : Type} (k : Nat) (l : List α) : (lastN k l).length ≤ k := by
  simp only [lastN, List.length_drop]
  omega

theorem take_append_take {α : Type} (k : Nat) (ys zs : List α) :
    (ys ++ zs.take k).take k = (ys ++ zs).take k := by
  by_cases h : k ≤ ys.length
  · rw [List.take_append_of_le_length h, List.take_append_of_le_length h]
  · push_neg at h
    have hk : ys.length + (k - ys.length) = k := Nat.add_sub_cancel' (le_of_lt h)
    rw [← hk, List.take_append, List.take_append, List.take_take]
    have : min (k - ys.length) k = k - ys.length := Nat.min_eq_left (Nat.sub_le _ _)
    rw [hk, this]

theorem lastN_append_lastN {α : Type} (k : Nat) (l xs : List α) :
    lastN k (lastN k l ++ xs) = lastN k (l ++ xs) := by
  have hrev : (lastN k l).reverse = l.reverse.take k := by
    rw [lastN_eq_reverse_take, List.reverse_reverse]
  rw [lastN_eq_reverse_take k (lastN k l ++ xs), lastN_eq_reverse_take k (l ++ xs),
    List.reverse_append, List.reverse_append, hrev, take_append_take]

theorem getHistory_addMessage_self (sessions : Sessions) (B : Nat) (hB : 1 ≤ B)
    (s r c t : String) (md : Option String) :
    getHistory (addMessage sessions B s r c t md) s =
      lastN (B * 2) (getHistory sessions s ++ [⟨r, c, t, md⟩]) := by
  have hget : dictGet (if (dictGet sessions s).isSome then sessions
      else dictSet sessions s []) s = some ((dictGet sessions s).getD []) := by
    cases h : dictGet sessions s with
    | none => simp [h, dictGet_dictSet_self]
    | some v => simp [h]
  simp only [addMessage, getHistory, hget, Option.getD_some, dictGet_dictSet_self]
  by_cases hlen : B * 2 <
      ((dictGet sessions s).getD [] ++ [(⟨r, c, t, md⟩ : ChatMessage)]).length
  · have hk : ¬ B * 2 = 0 := by omega
    rw [if_pos hlen]
    unfold pyTailSlice lastN
    rw [if_neg hk]
  · rw [if_neg hlen]
    unfold lastN
    have hle : ((dictGet sessions s).getD [] ++
        [(⟨r, c, t, md⟩ : ChatMessage)]).length - B * 2 = 0 := by omega
    rw [hle, List.drop_zero]

theorem getHistory_runAddMessages (B : Nat) (hB : 1 ≤ B) (s : String)
    (inputs : List MsgInput) :
    ∀ sessions : Sessions, (getHistory sessions s).length ≤ B * 2 →
      getHistory (runAddMessages sessions B s inputs) s =
        lastN (B * 2) (getHistory sessions s ++ inputs.map MsgInput.toMessage) := by
  induction inputs with
  | nil =>
    intro sessions hlen
    have h0 : (getHistory sessions s).length - B * 2 = 0 := by omega
    simp [runAddMessages, lastN, h0]
  | cons i rest ih =>
    intro sessions hlen
    have hstep : runAddMessages sessions B s (i :: rest) =
        runAddMessages (addMessage sessions B s i.role i.content i.timestamp i.metadata)
          B s rest := rfl
    rw [hstep, ih _ ?_]
    · rw [getHistory_addMessage_self sessions B hB, lastN_append_lastN]
      simp [List.append_assoc, MsgInput.toMessage]
    · rw [getHistory_addMessage_self sessions B hB]
      exact lastN_length_le _ _


/-- C5 counterexample: with configured history bound `B = 0`, a single
`add_message` leaves a transcript of length 1, but `min(N, 2B) = 0`; the
trim slice `lst[-0:]` keeps the whole list, so the claimed bound fails
for `B = 0`. -/
theorem memory_bound_zero_counterexample :
    (getHistory (addMessage [] 0 "s" "user" "hi" "t0" none) "s").length = 1 ∧
    ¬ ((getHistory (addMessage [] 0 "s" "user" "hi" "t0" none) "s").length
        = min 1 (2 * 0)) := by
  constructor
  · rfl
  · intro h
    simp at h
    exact absurd h (by decide)

/-- C5 (amended to positive bounds): for every configured history bound
`B ≥ 1`, every session `s` starting with an empty transcript, and every
sequence of `N` calls to `add_message` on `s`, the stored transcript is
exactly the most recent `min(N, 2B)` messages in order (oldest dropped
first) and its length is `min(N, 2B)`. -/
theorem memory_bounded_fifo (B : Nat) (hB : 1 ≤ B) (sessions : Sessions) (s : String)
    (inputs : List MsgInput) (h0 : getHistory sessions s = []) :
    getHistory (runAddMessages sessions B s inputs) s =
      (inputs.map MsgInput.toMessage).drop (inputs.length - B * 2) ∧
    (getHistory (runAddMessages sessions B s inputs) s).length
      = min inputs.length (B * 2) := by
  have hlen : (getHistory sessions s).length ≤ B * 2 := by simp [h0]
  have hmain := getHistory_runAddMessages B hB s inputs sessions hlen
  rw [h0] at hmain
  simp only [List.nil_append] at hmain
  constructor
  · rw [hmain]
    simp [lastN]
  · rw [hmain]
    simp only [lastN, List.length_drop, List.length_map]
    omega

/-- Witness for C5: bound `B = 1`, three messages into a fresh session;
the transcript is the last two messages and has length `min 3 2 = 2`. -/
theorem memory_bounded_fifo_witness :
    1 ≤ 1 ∧ getHistory [] "s" = [] ∧
    (getHistory (runAddMessages [] 1 "s" witnessMsgs) "s" =
      (witnessMsgs.map MsgInput.toMessage).drop (witnessMsgs.length - 1 * 2) ∧
    (getHistory (runAddMessages [] 1 "s" witnessMsgs) "s").length
      = min witnessMsgs.length (1 * 2)) :=
  ⟨le_refl 1, rfl, memory_bounded_fifo 1 (le_refl 1) [] "s" witnessMsgs rfl⟩

/-- C10: for distinct session ids `s ≠ t`, `add_message` and
`clear_session` on `s` leave `t`'s transcript unchanged, and
`clear_session` on an id with no stored transcript is a no-op (and raises
no error, being total). -/
theorem memory_session_isolation (sessions : Sessions) (B : Nat)
    (s t r c ts : String) (md : Option String) (hst : s ≠ t) :
    getHistory (addMessage sessions B s r c ts md) t = getHistory sessions t ∧
    getHistory (clearSession sessions s) t = getHistory sessions t ∧
    (dictGet sessions s = none → clearSession sessions s = sessions) := by
  refine ⟨?_, ?_, ?_⟩
  · unfold addMessage getHistory
    cases h : dictGet sessions s with
    | none =>
      simp only [h, Option.isSome_none, Bool.false_eq_true, if_false]
      rw [dictGet_dictSet_ne _ _ _ _ (Ne.symm hst), dictGet_dictSet_ne _ _ _ _ (Ne.symm hst)]
    | some v =>
      simp only [h, Option.isSome_some, if_true]
      rw [dictGet_dictSet_ne _ _ _ _ (Ne.symm hst)]
  · unfold clearSession getHistory
    cases h : dictGet sessions s with
    | none => simp [h]
    | some v =>
      simp only [h, Option.isSome_some, if_true]
      rw [dictGet_dictDelete_ne _ _ _ (Ne.symm hst)]
  · intro h
    unfold clearSession
    simp [h]

theorem dictGet_sqlUpdate (store : SqlStore) (taskId : String) (f : TaskRow → TaskRow) :
    dictGet (sqlUpdate store taskId f) taskId = (dictGet store taskId).map f := by
  induction store with
  | nil => simp [sqlUpdate, dictGet]
  | cons e rest ih =>
    by_cases he : e.1 = taskId
    · simp [sqlUpdate, dictGet, he]
    · simp only [sqlUpdate, List.map_cons, if_neg he]
      simp only [sqlUpdate] at ih
      simp [dictGet, he, ih]

/-- C1: the background pipeline's terminal state never reaches the
persisted store that `get_task` reads. `create_task("t1", ...)` inserts a
`processing` row into the sqlite store, but `process_and_index_document`
records success (here: one 3-page document yielding 5 chunks) and failure
only in the in-process `task_statuses` dict — it never calls
`complete_task`/`fail_task` — so `get_task` keeps answering `processing`.
This refutes the claim at the concrete input and exhibits the code bug. -/
theorem pipeline_terminal_state_not_persisted :
    createTask [] "t1" "report.pdf" "T0" =
      Except.ok ([("t1", ⟨TaskStatus.processing.value, "report.pdf", "T0",
        none, none, none, none, none, some 1⟩)],
        ⟨TaskStatus.processing, "report.pdf", "T0"⟩) ∧
    (getTask [("t1", ⟨TaskStatus.processing.value, "report.pdf", "T0",
        none, none, none, none, none, some 1⟩)] "t1").map TaskResult.status
      = some "processing" ∧
    (dictGet (processAndIndexDocument [] "uploads/u1/f1/report.pdf" "t1"
        (Except.ok ([some 3], 5)) "T1") "t1").map
      (fun t => (t.status, t.chunks, t.pages))
      = some (TaskStatus.completed, some 5, some 3) ∧
    (dictGet (processAndIndexDocument [] "uploads/u1/f1/report.pdf" "t1"
        (Except.error "boom") "T1") "t1").map
      (fun t => (t.status, t.error)) = some (TaskStatus.failed, some "boom") :=
  ⟨rfl, rfl, rfl, rfl⟩

/-- C7 counterexample: a terminal task record is not immutable. Starting
from the reachable store created by `create_task("t", ...)`, after
`complete_task` the record reads `completed`, yet a subsequent
`fail_task` call flips it to `failed` with an error message — an outgoing
transition from a terminal state, contradicting the claim. -/
theorem terminal_task_overwritten_counterexample :
    createTask [] "t" "f.txt" "T0" = Except.ok (seedStore, ⟨TaskStatus.processing, "f.txt", "T0"⟩) ∧
    (getTask (completeTask seedStore "t" 4 2 "T1") "t").map TaskResult.status
      = some "completed" ∧
    (getTask (failTask (completeTask seedStore "t" 4 2 "T1") "t" "boom" "T2") "t").map
      (fun r => (r.status, r.error)) = some ("failed", some "boom") :=
  ⟨rfl, rfl, rfl⟩

/-- C7 (amended): once a task record exists (in particular once it is
terminal), `create_task` on its id raises the unique-key error and leaves
the store unchanged; but `complete_task` and `fail_task` carry no status
guard — they unconditionally rewrite the record to `completed` resp.
`failed`. Terminal states are therefore protected from `create_task`
only, not from further `complete_task`/`fail_task` calls. -/
theorem terminal_task_transitions (store : SqlStore) (id fn now now2 err : String)
    (r : TaskRow) (c p : Int) (h : dictGet store id = some r) :
    createTask store id fn now = Except.error "UNIQUE constraint failed: tasks.task_id" ∧
    (dictGet (completeTask store id c p now2) id).map TaskRow.status = some "completed" ∧
    (dictGet (failTask store id err now2) id).map TaskRow.status = some "failed" := by
  refine ⟨?_, ?_, ?_⟩
  · simp [createTask, h]
  · simp [completeTask, dictGet_sqlUpdate, h, TaskStatus.value]
  · simp [failTask, dictGet_sqlUpdate, h, TaskStatus.value]

/-- Witness for the amended C7 at the concrete seeded store. -/
theorem terminal_task_transitions_witness :
    createTask seedStore "t" "g.txt" "T3" =
      Except.error "UNIQUE constraint failed: tasks.task_id" ∧
    (dictGet (completeTask seedStore "t" 1 1 "T4") "t").map TaskRow.status
      = some "completed" ∧
    (dictGet (failTask seedStore "t" "e" "T4") "t").map TaskRow.status = some "failed" :=
  terminal_task_transitions seedStore "t" "g.txt" "T3" "T4" "e" seedRow 1 1 rfl

theorem buildSummary_length_le (n : Nat) (l : List (List Char)) :
    ∀ acc : List Char, acc.length ≤ n → (buildSummary n l acc).length ≤ n := by
  induction l with
  | nil =>
    intro acc h
    simpa [buildSummary] using h
  | cons sent rest ih =>
    intro acc h
    by_cases hc : acc.length + sent.length + 2 ≤ n
    · rw [buildSummary, if_pos hc]
      apply ih
      by_cases he : acc.isEmpty
      · rw [if_pos he]
        have hz : acc.length = 0 := by
          simpa [List.isEmpty_iff, List.length_eq_zero] using he
        simp only [List.length_append]
        omega
      · rw [if_neg he]
        simp only [List.length_append, List.length_cons]
        omega
    · rw [buildSummary, if_neg hc]
      exact h

/-- C6: for every chunk text longer than 200 characters and every
optional query, the excerpt produced by `_extract_key_sentences`,
excluding the trailing ellipsis marker, has at most 200 characters; the
ellipsis is appended on every such output, which is strictly shorter than
the original text. -/
theorem extract_key_sentences_bounded (text : List Char) (query : Option (List Char))
    (h : 200 < text.length) :
    ∃ core : List Char, extractKeySentences text query 200 = core ++ ellipsis ∧
      core.length ≤ 200 ∧ core.length < text.length := by
  have hnot : ¬ text.length ≤ 200 := by omega
  have htake : (text.take 200).length = 200 := by
    simp [List.length_take]
    omega
  simp only [extractKeySentences, if_neg hnot]
  by_cases hempty : ((splitSentences text).map pyStrip).filter (fun s => !s.isEmpty) = []
  · rw [if_pos hempty]
    exact ⟨text.take 200, rfl, by omega, by omega⟩
  · rw [if_neg hempty]
    by_cases hsum : buildSummary 200
        (orderSentences query (((splitSentences text).map pyStrip).filter
          (fun s => !s.isEmpty))) [] = []
    · rw [if_pos hsum]
      exact ⟨text.take 200, rfl, by omega, by omega⟩
    · rw [if_neg hsum, if_pos h]
      have hb : (buildSummary 200
          (orderSentences query (((splitSentences text).map pyStrip).filter
            (fun s => !s.isEmpty))) []).length ≤ 200 :=
        buildSummary_length_le 200 _ [] (by simp)
      exact ⟨_, rfl, hb, by omega⟩

/-- Witness for C6 at a concrete 201-character text. -/
theorem extract_key_sentences_bounded_witness :
    200 < (List.replicate 201 'a').length ∧
    ∃ core : List Char,
      extractKeySentences (List.replicate 201 'a') none 200 = core ++ ellipsis ∧
      core.length ≤ 200 ∧ core.length < (List.replicate 201 'a').length :=
  ⟨by rw [List.length_replicate]; omega,
   extract_key_sentences_bounded (List.replicate 201 'a') none
     (by rw [List.length_replicate]; omega)⟩

theorem dictGet_eq_none_iff {β : Type} (m : List (String × β)) (k : String) :
    dictGet m k = none ↔ k ∉ m.map (fun e => e.1) := by
  induction m with
  | nil => simp [dictGet]
  | cons e rest ih =>
    by_cases h : e.1 = k
    · simp [dictGet, h]
    · simp [dictGet, h, ih, Ne.symm h]

theorem mem_dictSet {β : Type} (m : List (String × β)) (k : String) (v : β) :
    ∀ e ∈ dictSet m k v, e = (k, v) ∨ e ∈ m := by
  induction m with
  | nil =>
    intro e he
    simp only [dictSet, List.mem_singleton] at he
    exact Or.inl he
  | cons f rest ih =>
    intro e he
    by_cases h : f.1 = k
    · simp only [dictSet, if_pos h] at he
      rcases List.mem_cons.mp he with h1 | h1
      · exact Or.inl h1
      · exact Or.inr (List.mem_cons_of_mem f h1)
    · simp only [dictSet, if_neg h] at he
      rcases List.mem_cons.mp he with h1 | h1
      · exact Or.inr (h1 ▸ List.mem_cons_self f rest)
      · rcases ih e h1 with h2 | h2
        · exact Or.inl h2
        · exact Or.inr (List.mem_cons_of_mem f h2)

theorem keys_dictSet_isSome {β : Type} (m : List (String × β)) (k : String) (v : β)
    (h : (dictGet m k).isSome) :
    (dictSet m k v).map (fun e => e.1) = m.map (fun e => e.1) := by
  induction m with
  | nil => simp [dictGet] at h
  | cons f rest ih =>
    by_cases hf : f.1 = k
    · simp [dictSet, hf]
    · simp only [dictGet, if_neg hf] at h
      simp [dictSet, hf, ih h]

theorem keys_dictSet_none {β : Type} (m : List (String × β)) (k : String) (v : β)
    (h : dictGet m k = none) :
    (dictSet m k v).map (fun e => e.1) = m.map (fun e => e.1) ++ [k] := by
  induction m with
  | nil => simp [dictSet]
  | cons f rest ih =>
    by_cases hf : f.1 = k
    · simp only [dictGet, if_pos hf] at h
      exact absurd h (by simp)
    · simp only [dictGet, if_neg hf] at h
      simp [dictSet, hf, ih h]

theorem dictGet_addHit_ne (rs : FusedResults) (w m : ℚ) (hit : Node × ℚ) (k : String)
    (h : hit.1.nodeId ≠ k) :
    dictGet (addHit rs w m hit) k = dictGet rs k := by
  simp only [addHit]
  rw [dictGet_dictSet_ne _ _ _ _ (Ne.symm h)]
  by_cases hs : (dictGet rs hit.1.nodeId).isSome
  · rw [if_pos hs]
  · rw [if_neg hs, dictGet_dictSet_ne _ _ _ _ (Ne.symm h)]

theorem dictGet_fusePhase_ne (hits : List (Node × ℚ)) (w m : ℚ) (k : String) :
    ∀ rs : FusedResults, k ∉ hits.map (fun p => p.1.nodeId) →
      dictGet (fusePhase rs hits w m) k = dictGet rs k := by
  induction hits with
  | nil => intro rs _; rfl
  | cons hit rest ih =>
    intro rs hk
    simp only [List.map_cons, List.mem_cons, not_or] at hk
    have hstep : fusePhase rs (hit :: rest) w m
        = fusePhase (addHit rs w m hit) rest w m := rfl
    rw [hstep, ih (addHit rs w m hit) hk.2, dictGet_addHit_ne]
    exact fun hh => hk.1 hh.symm

theorem dictGet_addHit_fresh (rs : FusedResults) (w m : ℚ) (hit : Node × ℚ)
    (h : dictGet rs hit.1.nodeId = none) :
    dictGet (addHit rs w m hit) hit.1.nodeId
      = some (hit.1, w * normalizeScore hit.2 m) := by
  simp [addHit, h, dictGet_dictSet_self]

theorem goodResults_addHit (rs : FusedResults) (w m : ℚ) (hit : Node × ℚ)
    (h : goodResults rs) : goodResults (addHit rs w m hit) := by
  obtain ⟨hnd, hids⟩ := h
  by_cases hs : (dictGet rs hit.1.nodeId).isSome
  · have hre : addHit rs w m hit = dictSet rs hit.1.nodeId
        (hit.1, ((dictGet rs hit.1.nodeId).getD (hit.1, 0)).2
          + w * normalizeScore hit.2 m) := by
      simp only [addHit, if_pos hs]
    rw [hre]
    constructor
    · rw [keys_dictSet_isSome _ _ _ hs]
      exact hnd
    · intro e he
      rcases mem_dictSet _ _ _ e he with h1 | h1
      · rw [h1]
      · exact hids e h1
  · have hnone : dictGet rs hit.1.nodeId = none := Option.not_isSome_iff_eq_none.mp hs
    have hre : addHit rs w m hit
        = dictSet (dictSet rs hit.1.nodeId (hit.1, 0)) hit.1.nodeId
          (hit.1, ((dictGet (dictSet rs hit.1.nodeId (hit.1, 0)) hit.1.nodeId).getD
            (hit.1, 0)).2 + w * normalizeScore hit.2 m) := by
      simp only [addHit, if_neg hs]
    rw [hre]
    constructor
    · rw [keys_dictSet_isSome, keys_dictSet_none _ _ _ hnone]
      · rw [List.nodup_append]
        refine ⟨hnd, List.nodup_singleton _, ?_⟩
        intro a ha hb
        simp only [List.mem_singleton] at hb
        subst hb
        exact (dictGet_eq_none_iff rs hit.1.nodeId).mp hnone ha
      · rw [dictGet_dictSet_self]
        rfl
    · intro e he
      rcases mem_dictSet _ _ _ e he with h1 | h1
      · rw [h1]
      · rcases mem_dictSet _ _ _ e h1 with h2 | h2
        · rw [h2]
        · exact hids e h2

theorem goodResults_fusePhase (hits : List (Node × ℚ)) (w m : ℚ) :
    ∀ rs : FusedResults, goodResults rs → goodResults (fusePhase rs hits w m) := by
  induction hits with
  | nil => intro rs h; exact h
  | cons hit rest ih =>
    intro rs h
    exact ih (addHit rs w m hit) (goodResults_addHit rs w m hit h)

theorem goodResults_retrieveFused (bm25Search : Option (String → Nat → List (Node × ℚ)))
    (vectorSearch : Except String (String → Nat → List (Node × ℚ)))
    (w : ℚ) (query : String) (topK : Nat) :
    goodResults (retrieveFused bm25Search vectorSearch w query topK) := by
  have hnil : goodResults ([] : FusedResults) := ⟨List.nodup_nil, by simp⟩
  simp only [retrieveFused]
  cases bm25Search with
  | none =>
    cases vectorSearch with
    | error e => exact hnil
    | ok g => exact goodResults_fusePhase _ _ _ _ hnil
  | some f =>
    cases vectorSearch with
    | error e => exact goodResults_fusePhase _ _ _ _ hnil
    | ok g => exact goodResults_fusePhase _ _ _ _ (goodResults_fusePhase _ _ _ _ hnil)

/-- C3: for every query, every requested `k`, and arbitrary behaviour of
the two underlying retrievers, `HybridRetriever.retrieve` returns at most
`k` results with pairwise distinct node ids. -/
theorem hybrid_retrieve_topk_nodup (bm25Search : Option (String → Nat → List (Node × ℚ)))
    (vectorSearch : Except String (String → Nat → List (Node × ℚ)))
    (w : ℚ) (query : String) (topK : Nat) :
    (retrieve bm25Search vectorSearch w query topK).length ≤ topK ∧
    ((retrieve bm25Search vectorSearch w query topK).map
      (fun x => x.node.nodeId)).Nodup := by
  obtain ⟨hnd, hids⟩ := goodResults_retrieveFused bm25Search vectorSearch w query topK
  constructor
  · simp only [retrieve, List.length_map, List.length_take]
    omega
  · simp only [retrieve, List.map_map]
    have hcomp : ((fun x : NodeWithScore => x.node.nodeId) ∘
        (fun p : Node × ℚ => (⟨p.1, p.2⟩ : NodeWithScore))) = fun p : Node × ℚ => p.1.nodeId :=
      rfl
    rw [hcomp, List.map_take]
    have hvals : (((retrieveFused bm25Search vectorSearch w query topK).map
        (fun e => e.2)).map (fun p => p.1.nodeId)).Nodup := by
      rw [List.map_map]
      have heq : ((retrieveFused bm25Search vectorSearch w query topK).map
          ((fun p : Node × ℚ => p.1.nodeId) ∘ (fun e : String × Node × ℚ => e.2)))
          = (retrieveFused bm25Search vectorSearch w query topK).map (fun e => e.1) :=
        List.map_congr_left (fun e he => hids e he)
      rw [heq]
      exact hnd
    have hperm := (List.mergeSort_perm ((retrieveFused bm25Search vectorSearch w query
      topK).map (fun e => e.2)) (fun a b => b.2 ≤ a.2)).map (fun p : Node × ℚ => p.1.nodeId)
    exact List.Nodup.sublist (List.take_sublist _ _) (hperm.symm.nodup hvals)

/-- C2: for a query whose lexical result set contains the chunk `n`
exactly once (with raw score `s`) and whose other lexical hits and all
vector hits miss `n`, the fused score of `n` equals
`(1 - vector_weight) * (s / max lexical score)` whenever that maximum is
positive; and any result set with maximum score ≤ 0 has all its
normalised scores treated as 0. -/
theorem hybrid_lexical_only_fusion (search : String → Nat → List (Node × ℚ))
    (vectorSearch : Except String (String → Nat → List (Node × ℚ)))
    (w : ℚ) (query : String) (topK : Nat)
    (n : Node) (s : ℚ) (l1 l2 : List (Node × ℚ))
    (hhits : search query (topK * 2) = l1 ++ (n, s) :: l2)
    (hout : n.nodeId ∉ (l1 ++ l2).map (fun p => p.1.nodeId))
    (hmax : 0 < pyMax ((l1 ++ (n, s) :: l2).map (fun p => p.2)) 1)
    (hvec : ∀ g, vectorSearch = Except.ok g →
      n.nodeId ∉ ((g query (topK * 2)).take (topK * 2)).map (fun p => p.1.nodeId)) :
    dictGet (retrieveFused (some search) vectorSearch w query topK) n.nodeId
      = some (n, (1 - w) * (s / pyMax ((l1 ++ (n, s) :: l2).map (fun p => p.2)) 1)) ∧
    (∀ sc mx : ℚ, mx ≤ 0 → normalizeScore sc mx = 0) := by
  constructor
  · simp only [List.mem_append, not_or, List.map_append] at hout
    have hout1 : n.nodeId ∉ l1.map (fun p => p.1.nodeId) := hout.1
    have hout2 : n.nodeId ∉ l2.map (fun p => p.1.nodeId) := hout.2
    set mx := pyMax ((l1 ++ (n, s) :: l2).map (fun p => p.2)) 1 with hmx
    have hlex : dictGet (fusePhase [] (l1 ++ (n, s) :: l2) (1 - w) mx) n.nodeId
        = some (n, (1 - w) * (s / mx)) := by
      have hfold : fusePhase ([] : FusedResults) (l1 ++ (n, s) :: l2) (1 - w) mx
          = fusePhase (addHit (fusePhase [] l1 (1 - w) mx) (1 - w) mx (n, s))
              l2 (1 - w) mx := by
        simp only [fusePhase, List.foldl_append, List.foldl_cons]
      have h1 : dictGet (fusePhase ([] : FusedResults) l1 (1 - w) mx) n.nodeId = none := by
        rw [dictGet_fusePhase_ne l1 (1 - w) mx n.nodeId [] hout1]
        rfl
      have h2 : dictGet (addHit (fusePhase [] l1 (1 - w) mx) (1 - w) mx (n, s)) n.nodeId
          = some (n, (1 - w) * (s / mx)) := by
        have := dictGet_addHit_fresh (fusePhase [] l1 (1 - w) mx) (1 - w) mx (n, s) h1
        rw [this, normalizeScore, if_pos hmax]
      rw [hfold, dictGet_fusePhase_ne l2 (1 - w) mx n.nodeId _ hout2, h2]
    simp only [retrieveFused, hhits]
    cases vectorSearch with
    | error e => exact hlex
    | ok g =>
      rw [dictGet_fusePhase_ne _ _ _ _ _ (hvec g rfl)]
      exact hlex
  · intro sc mx hmx0
    rw [normalizeScore, if_neg (not_lt.mpr hmx0)]

/-- Witness for C2: lexical hits `[(a, 3), (b, 1)]`, vector retrieval
raising, `vector_weight = 1/2`: the fused score of `a` is
`(1 - 1/2) * (3 / 3)`, and a non-positive maximum normalises to 0. -/
theorem hybrid_lexical_only_fusion_witness :
    0 < pyMax (witnessHits.map (fun p => p.2)) 1 ∧
    (dictGet (retrieveFused (some (fun q k => witnessHits)) (Except.error "down")
        ((1 : ℚ)/2) "q" 5) "a"
      = some (⟨"a", "alpha"⟩, (1 - (1 : ℚ)/2) * (3 / pyMax (witnessHits.map
          (fun p => p.2)) 1)) ∧
    (∀ sc mx : ℚ, mx ≤ 0 → normalizeScore sc mx = 0)) :=
  ⟨by norm_num [witnessHits, pyMax],
   hybrid_lexical_only_fusion (fun q k => witnessHits) (Except.error "down")
     ((1 : ℚ)/2) "q" 5 ⟨"a", "alpha"⟩ 3 [] [(⟨"b", "beta"⟩, 1)] rfl
     (by decide)
     (by norm_num [witnessHits, pyMax])
     (fun g h => nomatch h)⟩

theorem chunkOne_assign (posMap : List (String × Int)) (docMeta : DocMeta)
    (span : List Char) (hpre : ∀ v : Int, docMeta.start_char_idx ≠ some (some v)) :
    chunkOne posMap docMeta span =
      (⟨span, docMeta.file_name.getD "unknown",
        (dictGet posMap (docMeta.file_name.getD "unknown")).getD 0⟩,
       dictSet posMap (docMeta.file_name.getD "unknown")
         ((dictGet posMap (docMeta.file_name.getD "unknown")).getD 0 + span.length)) := by
  rcases hm : docMeta.start_char_idx with _ | v
  · simp [chunkOne, hm]
  · rcases v with _ | i
    · simp [chunkOne, hm]
    · exact absurd hm (hpre i)

theorem chunkInv_chunkOne (posMap : List (String × Int)) (docMeta : DocMeta)
    (span : List Char) (nodes : List ChunkNode)
    (hpre : ∀ v : Int, docMeta.start_char_idx ≠ some (some v))
    (h : chunkInv nodes posMap) :
    chunkInv (nodes ++ [(chunkOne posMap docMeta span).1])
      (chunkOne posMap docMeta span).2 := by
  obtain ⟨hpos, hbound, hmap, hpair⟩ := h
  rw [chunkOne_assign posMap docMeta span hpre]
  set docName := docMeta.file_name.getD "unknown" with hdn
  set start := (dictGet posMap docName).getD 0 with hstart
  have hlen : (0 : Int) ≤ (span.length : Int) := Int.natCast_nonneg _
  have hstart_nonneg : 0 ≤ start := by
    rw [hstart]
    cases hg : dictGet posMap docName with
    | none => simp
    | some mv => simpa using hmap docName mv hg
  refine ⟨?_, ?_, ?_, ?_⟩
  · intro c hc
    rcases List.mem_append.mp hc with h1 | h1
    · exact hpos c h1
    · simp only [List.mem_singleton] at h1
      subst h1
      exact hstart_nonneg
  · intro c hc
    rcases List.mem_append.mp hc with h1 | h1
    · obtain ⟨mv, hg, hle⟩ := hbound c h1
      by_cases hcf : c.file_name = docName
      · rw [hcf] at hg
        have hms : start = mv := by rw [hstart, hg]; rfl
        refine ⟨start + span.length, ?_, by omega⟩
        rw [hcf]
        exact dictGet_dictSet_self _ _ _
      · refine ⟨mv, ?_, hle⟩
        rw [dictGet_dictSet_ne _ _ _ _ hcf]
        exact hg
    · simp only [List.mem_singleton] at h1
      subst h1
      refine ⟨start + span.length, dictGet_dictSet_self _ _ _, ?_⟩
      show start ≤ start + (span.length : Int)
      omega
  · intro f mv hg
    by_cases hf : f = docName
    · subst hf
      rw [dictGet_dictSet_self] at hg
      have hinj := Option.some.inj hg
      omega
    · rw [dictGet_dictSet_ne _ _ _ _ hf] at hg
      exact hmap f mv hg
  · rw [List.pairwise_append]
    refine ⟨hpair, List.pairwise_singleton _ _, ?_⟩
    intro a ha b hb
    simp only [List.mem_singleton] at hb
    subst hb
    intro heq
    have heq' : a.file_name = docName := heq
    obtain ⟨mv, hg, hle⟩ := hbound a ha
    rw [heq'] at hg
    have hms : start = mv := by rw [hstart, hg]; rfl
    show a.start_char_idx ≤ start
    omega

theorem chunkInv_spansFold (docMeta : DocMeta)
    (hpre : ∀ v : Int, docMeta.start_char_idx ≠ some (some v))
    (spans : List (List Char)) :
    ∀ st : List ChunkNode × List (String × Int), chunkInv st.1 st.2 →
      chunkInv (spans.foldl (fun st span =>
          ((st.1 ++ [(chunkOne st.2 docMeta span).1]), (chunkOne st.2 docMeta span).2)) st).1
        (spans.foldl (fun st span =>
          ((st.1 ++ [(chunkOne st.2 docMeta span).1]), (chunkOne st.2 docMeta span).2)) st).2 := by
  induction spans with
  | nil => intro st h; exact h
  | cons span rest ih =>
    intro st h
    exact ih _ (chunkInv_chunkOne st.2 docMeta span st.1 hpre h)

theorem chunkInv_chunkDocumentsAux (split : List Char → List (List Char))
    (documents : List PyDocument) :
    (∀ d ∈ documents, ∀ v : Int, d.metadata.start_char_idx ≠ some (some v)) →
    ∀ st : List ChunkNode × List (String × Int), chunkInv st.1 st.2 →
      chunkInv (documents.foldl (fun state doc =>
          (split (normalizeText doc.text)).foldl (fun st span =>
            ((st.1 ++ [(chunkOne st.2 doc.metadata span).1]),
              (chunkOne st.2 doc.metadata span).2)) state) st).1
        (documents.foldl (fun state doc =>
          (split (normalizeText doc.text)).foldl (fun st span =>
            ((st.1 ++ [(chunkOne st.2 doc.metadata span).1]),
              (chunkOne st.2 doc.metadata span).2)) state) st).2 := by
  induction documents with
  | nil => intro _ st h; exact h
  | cons doc rest ih =>
    intro hsrc st h
    have hpre : ∀ v : Int, doc.metadata.start_char_idx ≠ some (some v) :=
      hsrc doc (List.mem_cons_self doc rest)
    exact ih (fun d hd => hsrc d (List.mem_cons_of_mem doc hd)) _
      (chunkInv_spansFold doc.metadata hpre (split (normalizeText doc.text)) st h)

/-- C8: for every input sequence of source documents (whose metadata, as
in all this repository's loaders, carries no pre-set `start_char_idx`)
and every behaviour of the semantic splitter, each emitted chunk has a
non-negative `start_char_idx`, and among chunks sharing a filename the
offsets are non-decreasing in emission order. -/
theorem chunker_offsets_monotone (split : List Char → List (List Char))
    (documents : List PyDocument)
    (hsrc : ∀ d ∈ documents, ∀ v : Int, d.metadata.start_char_idx ≠ some (some v)) :
    (∀ c ∈ chunkDocuments split documents, 0 ≤ c.start_char_idx) ∧
    (chunkDocuments split documents).Pairwise
      (fun a b => a.file_name = b.file_name → a.start_char_idx ≤ b.start_char_idx) := by
  have h0 : chunkInv ([] : List ChunkNode) ([] : List (String × Int)) := by
    refine ⟨by simp, by simp, ?_, List.Pairwise.nil⟩
    intro f m hg
    simp [dictGet] at hg
  have h := chunkInv_chunkDocumentsAux split documents hsrc ([], []) h0
  exact ⟨h.1, h.2.2.2⟩

/-- Witness for C8: two loader-style documents sharing the filename
"f.txt" and a trivial one-span splitter. -/
theorem chunker_offsets_monotone_witness :
    (∀ d ∈ witnessDocs, ∀ v : Int, d.metadata.start_char_idx ≠ some (some v)) ∧
    ((∀ c ∈ chunkDocuments (fun t => [t]) witnessDocs, 0 ≤ c.start_char_idx) ∧
      (chunkDocuments (fun t => [t]) witnessDocs).Pairwise
        (fun a b => a.file_name = b.file_name → a.start_char_idx ≤ b.start_char_idx)) := by
  have hsrc : ∀ d ∈ witnessDocs, ∀ v : Int, d.metadata.start_char_idx ≠ some (some v) := by
    intro d hd v heq
    simp only [witnessDocs, List.mem_cons, List.not_mem_nil, or_false] at hd
    rcases hd with h | h <;> (subst h; exact Option.noConfusion heq)
  exact ⟨hsrc, chunker_offsets_monotone (fun t => [t]) witnessDocs hsrc⟩

/-- Witness for C10: adding to session "s" and clearing "s" do not touch
session "t", and clearing the absent session "u" is a no-op. -/
theorem memory_session_isolation_witness :
    getHistory (addMessage [("t", [⟨"user", "x", "t0", none⟩])] 1 "s" "user" "y" "t1" none) "t"
      = getHistory [("t", [⟨"user", "x", "t0", none⟩])] "t" ∧
    getHistory (clearSession [("t", [⟨"user", "x", "t0", none⟩])] "s") "t"
      = getHistory [("t", [⟨"user", "x", "t0", none⟩])] "t" ∧
    (dictGet [("t", [(⟨"user", "x", "t0", none⟩ : ChatMessage)])] "s" = none →
      clearSession [("t", [⟨"user", "x", "t0", none⟩])] "s"
        = [("t", [⟨"user", "x", "t0", none⟩])]) :=
  memory_session_isolation [("t", [⟨"user", "x", "t0", none⟩])] 1 "s" "t" "user" "y" "t1" none
    (by decide)

end DocuQuery
